import Mathlib

/-!
Verification development for a small Flask utility (src/app.py) that fills a
presentation template: it parses a newline-separated list of codes, chunks the
codes into fixed-size groups, duplicates the first slide once per extra chunk,
and substitutes the codes positionally into text runs containing a placeholder
token.

Text is modelled as `List Char`. Python string primitives used by the source
(`str.strip`, `str.splitlines`, `str.replace`, the `in` operator, `int(...)`)
are embedded below. A presentation is a list of slides; a slide is a list of
shapes; a shape carries the attributes the source reads (shape type, text
frame with paragraphs of runs, image blob, position, size, rotation).
Fallible Python operations are embedded with `Except` carrying the exception
message; console `print` calls are embedded as an explicit list of printed
lines threaded through the functions that print.
-/

/-- Python line-break characters: the set of characters on which
`str.splitlines` splits (`\n`, `\r`, `\v`, `\f`, file/group/record
separators, next-line, line separator, paragraph separator). -/
def isPyLineBreak (c : Char) : Bool :=
  c = '\n' || c = '\r' || c = '\x0b' || c = '\x0c' ||
  c = '\x1c' || c = '\x1d' || c = '\x1e' || c = '\x85' ||
  c = '\u2028' || c = '\u2029'

/-- Python whitespace, as stripped by `str.strip()`: space, tab, the
line-break characters, and the no-break space. (Python also strips the rarer
Unicode space characters; they are modelled the same way and none of the
results below depends on the exact extension of this set beyond it containing
every line-break character.) -/
def isPySpace (c : Char) : Bool :=
  c = ' ' || c = '\t' || c = '\xa0' || isPyLineBreak c

/-- Python `str.strip()`: remove leading and trailing whitespace. -/
def pyStrip (s : List Char) : List Char :=
  List.rdropWhile isPySpace (List.dropWhile isPySpace s)

/-- Python `str.splitlines()`: split on line-break characters, treating the
pair `\r\n` as a single break, with no trailing empty line for a trailing
break and `[]` for the empty string. -/
def pySplitlines : List Char → List (List Char)
  | [] => []
  | c :: t =>
    if c = '\r' then
      match t with
      | [] => [[]]
      | c2 :: t2 => if c2 = '\n' then [] :: pySplitlines t2 else [] :: pySplitlines (c2 :: t2)
    else if isPyLineBreak c then [] :: pySplitlines t
    else
      match pySplitlines t with
      | [] => [[c]]
      | l :: ls => (c :: l) :: ls

/-- Python `pat in s` for strings: substring containment. -/
def pyContains (pat : List Char) : List Char → Bool
  | [] => pat.isEmpty
  | c :: rest => pat.isPrefixOf (c :: rest) || pyContains pat rest

/-- Python `s.replace(pat, new, 1)`: replace the first occurrence of `pat`
(for an empty `pat`, Python inserts `new` in front of the string). -/
def pyReplaceFirst (pat new : List Char) : List Char → List Char
  | [] => if pat = [] then new else []
  | c :: rest =>
    if pat = [] then new ++ c :: rest
    else if pat.isPrefixOf (c :: rest) then new ++ List.drop (pat.length - 1) rest
    else c :: pyReplaceFirst pat new rest

/-- Helper for `pyReplaceAll` when the pattern is non-empty: replace every
occurrence of `pat`, scanning left to right. -/
def pyReplaceAllAux (pat new : List Char) : List Char → List Char
  | [] => []
  | c :: rest =>
    if pat ≠ [] ∧ pat.isPrefixOf (c :: rest) then
      new ++ pyReplaceAllAux pat new (List.drop (pat.length - 1) rest)
    else
      c :: pyReplaceAllAux pat new rest
termination_by l => l.length
decreasing_by
  · simp only [List.length_cons, List.length_drop]; omega
  · simp only [List.length_cons]; omega

/-- Python `s.replace(pat, new)`: replace every occurrence of `pat`
(for an empty `pat`, Python interleaves `new` around every character). -/
def pyReplaceAll (pat new : List Char) (s : List Char) : List Char :=
  if pat = [] then new ++ s.flatMap (fun c => c :: new)
  else pyReplaceAllAux pat new s

/-- Digits-to-value helper for `pyInt`. -/
def digitsVal (l : List Char) : Nat :=
  l.foldl (fun a c => a * 10 + (c.toNat - 48)) 0

/-- Python `int(s)` for a base-10 string: optional surrounding whitespace,
optional sign, then digits; anything else raises `ValueError`. (Python also
accepts single underscores between digits; that extension is irrelevant to
every input considered here.) -/
def pyInt (s : List Char) : Except (List Char) Int :=
  let t := pyStrip s
  let signed : Int × List Char :=
    match t with
    | [] => (1, [])
    | c :: r => if c = '+' then (1, r) else if c = '-' then (-1, r) else (1, c :: r)
  if signed.2 ≠ [] ∧ signed.2.all (fun c => c.isDigit) then
    .ok (signed.1 * (digitsVal signed.2 : Int))
  else
    .error ("invalid literal for int() with base 10: ".data ++ s)

/-- Source line 73: the list comprehension
`[line.strip() for line in running_numbers.strip().splitlines() if line.strip()]`. -/
def parseCodes (s : List Char) : List (List Char) :=
  ((pySplitlines (pyStrip s)).filter (fun l => !(pyStrip l).isEmpty)).map pyStrip

/-- Modelled from the spec: the parse result described by the spec sentence
"a list of trimmed non-empty code strings" and the claim wording "the list of
its lines that are non-empty after stripping whitespace, each stripped, in
their original line order" — the lines of the text itself, without the outer
`strip()` the code applies first. -/
def parseCodesSpec (s : List Char) : List (List Char) :=
  ((pySplitlines s).filter (fun l => !(pyStrip l).isEmpty)).map pyStrip

/-- Source line 78 for a positive step: the slices
`codes[i:i+n]` for `i in range(0, len(codes), n)`. -/
def chunksPos (n : Nat) : List α → List (List α)
  | [] => []
  | x :: xs => (x :: xs).take n :: chunksPos n (xs.drop (n - 1))
termination_by l => l.length
decreasing_by simp only [List.length_cons, List.length_drop]; omega

/-- Source line 78, full `range` semantics over an `int` step: step 0
raises `ValueError: range() arg 3 must not be zero`; a negative step yields an
empty `range(0, len(codes), step)` and hence no chunks; a positive step gives
the usual slices. -/
def pyChunks (codes : List (List Char)) (n : Int) :
    Except (List Char) (List (List (List Char))) :=
  if n = 0 then .error "range() arg 3 must not be zero".data
  else if n < 0 then .ok []
  else .ok (chunksPos n.toNat codes)

/-- A text run, carrying the only attribute the source reads and writes:
`run.text`. -/
structure Run where
  text : List Char
deriving DecidableEq, Repr

/-- A paragraph of a text frame: its list of runs. -/
structure Paragraph where
  runs : List Run
deriving DecidableEq, Repr

/-- Decidable equality for `Except`, used to derive decidable equality of the
document model. -/
instance {ε α : Type} [DecidableEq ε] [DecidableEq α] : DecidableEq (Except ε α)
  | .error a, .error b =>
    if h : a = b then .isTrue (by rw [h]) else .isFalse (by intro hh; cases hh; exact h rfl)
  | .error _, .ok _ => .isFalse (by intro h; cases h)
  | .ok _, .error _ => .isFalse (by intro h; cases h)
  | .ok a, .ok b =>
    if h : a = b then .isTrue (by rw [h]) else .isFalse (by intro hh; cases hh; exact h rfl)

/-- A shape on a slide, with the attributes the source reads:
`shape_type == MSO_SHAPE_TYPE.PICTURE`, `has_text_frame`,
`text_frame.paragraphs`, `image.blob` (which can raise, hence `Except`),
`left`, `top`, `width`, `height`, `rotation`. -/
structure Shape where
  isPicture : Bool
  hasTextFrame : Bool
  paragraphs : List Paragraph
  imageBlob : Except (List Char) (List Nat)
  left : Int
  top : Int
  width : Int
  height : Int
  rotation : Int
deriving DecidableEq, Repr

/-- A slide: its (possibly overridden) background element and its shapes in
document order. -/
structure Slide where
  background : Option (List Char)
  shapes : List Shape
deriving DecidableEq, Repr

/-- The picture shape produced by `dest.shapes.add_picture(stream, left, top,
width, height)` followed by `new_pic.rotation = shape.rotation` (source lines
44-52): a fresh picture at the same position and size with a valid image
relationship, no text frame. -/
def addPicture (blob : List Nat) (left top width height rotation : Int) : Shape :=
  { isPicture := true, hasTextFrame := false, paragraphs := [],
    imageBlob := .ok blob,
    left := left, top := top, width := width, height := height,
    rotation := rotation }

/-- The console line printed by the image-copy fallback (source line 56). -/
def imageFallbackLine (e : List Char) : List Char :=
  "Image copy failed, trying XML fallback: ".data ++ e

/-- The per-shape copy step of `duplicate_slide` (source lines 34-64), with
its console output. A picture shape is re-inserted from its extracted image
blob at the same position and size, with the rotation re-applied; if blob
extraction raises, the code prints a message and falls back to a raw
deep copy of the XML element, which in this value model is the shape itself.
Every other shape is raw-copied directly. Both `insert_element_before(...,
p:extLst)` on the fresh slide and `add_picture` append to the shape tree, so
document order is preserved. -/
def copyShape (sh : Shape) : Shape × List (List Char) :=
  if sh.isPicture then
    match sh.imageBlob with
    | .ok blob => (addPicture blob sh.left sh.top sh.width sh.height sh.rotation, [])
    | .error e => (sh, [imageFallbackLine e])
  else
    (sh, [])

/-- Source lines 11-66, `duplicate_slide(prs, source_slide)`: add a new slide
(mutating `prs`, here: returning the extended slide list), clear the default
layout placeholders on it, copy the background override if any, then copy
every source shape via `copyShape`. Returns the new slide list and the
console lines printed. -/
def duplicate_slide (prs : List Slide) (src : Slide) : List Slide × List (List Char) :=
  let copies := src.shapes.map copyShape
  (prs ++ [{ background := src.background, shapes := copies.map (fun c => c.1) }],
   (copies.map (fun c => c.2)).flatten)

/-- Source lines 97-103, the innermost loop of the replacement phase: walk
the runs in order threading `chunk_index`; a run whose text contains the
placeholder consumes the next code (replacing only the first occurrence)
while codes remain, and otherwise has every occurrence of the placeholder
replaced by the empty string. Returns the rewritten runs and the final
`chunk_index`. -/
def substRuns (ph : List Char) (chunk : List (List Char)) :
    Nat → List Run → List Run × Nat
  | idx, [] => ([], idx)
  | idx, r :: rs =>
    if pyContains ph r.text then
      if idx < chunk.length then
        let rest := substRuns ph chunk (idx + 1) rs
        (⟨pyReplaceFirst ph (chunk.getD idx []) r.text⟩ :: rest.1, rest.2)
      else
        let rest := substRuns ph chunk idx rs
        (⟨pyReplaceAll ph [] r.text⟩ :: rest.1, rest.2)
    else
      let rest := substRuns ph chunk idx rs
      (r :: rest.1, rest.2)

/-- Source line 96: the paragraph loop, threading `chunk_index` through the
runs of each paragraph in order. -/
def substParas (ph : List Char) (chunk : List (List Char)) :
    Nat → List Paragraph → List Paragraph × Nat
  | idx, [] => ([], idx)
  | idx, p :: ps =>
    let r := substRuns ph chunk idx p.runs
    let rest := substParas ph chunk r.2 ps
    (⟨r.1⟩ :: rest.1, rest.2)

/-- Source lines 92-94: the shape loop; shapes without a text frame are
skipped, the others have their paragraphs rewritten in order. -/
def substShapes (ph : List Char) (chunk : List (List Char)) :
    Nat → List Shape → List Shape × Nat
  | idx, [] => ([], idx)
  | idx, sh :: shs =>
    if sh.hasTextFrame then
      let r := substParas ph chunk idx sh.paragraphs
      let rest := substShapes ph chunk r.2 shs
      ({ sh with paragraphs := r.1 } :: rest.1, rest.2)
    else
      let rest := substShapes ph chunk idx shs
      (sh :: rest.1, rest.2)

/-- Source lines 88-103, body of the replacement loop for one slide: rewrite
the shapes of the slide with `chunk_index` starting at 0. -/
def substSlide (ph : List Char) (chunk : List (List Char)) (s : Slide) : Slide :=
  { background := s.background, shapes := (substShapes ph chunk 0 s.shapes).1 }

/-- The runs of a slide in traversal order of the replacement phase: shapes
in order, text-frame shapes contributing their paragraphs' runs in order. -/
def slideRuns (s : Slide) : List Run :=
  s.shapes.flatMap (fun sh => if sh.hasTextFrame then (sh.paragraphs.map Paragraph.runs).flatten else [])

/-- Source lines 88-103, the replacement phase: `for i, chunk in
enumerate(chunks)` rewrite slide `i` with chunk `i`. (In `process_pptx_template`
the index is always in range, because the slide count after duplication is at
least the chunk count; the out-of-range case below is therefore unreachable
there.) -/
def replaceData (ph : List Char) : List (List (List Char)) → Nat → List Slide → List Slide
  | [], _, slides => slides
  | chunk :: rest, i, slides =>
    let slides2 :=
      match slides[i]? with
      | some s => slides.set i (substSlide ph chunk s)
      | none => slides
    replaceData ph rest (i + 1) slides2

/-- Source lines 84-85, the duplication phase: call `duplicate_slide(prs,
source_slide)` a fixed number of times, accumulating console output. The
source slide argument is the same object each iteration. -/
def dupLoop (src : Slide) : Nat → List Slide × List (List Char) → List Slide × List (List Char)
  | 0, st => st
  | k + 1, st =>
    let d := duplicate_slide st.1 src
    dupLoop src k (d.1, st.2 ++ d.2)

/-- Message of the `IndexError` raised by `prs.slides[0]` on a presentation
with no slides (source line 81). -/
def slideIndexError : List Char := "slide index out of range".data

/-- Source lines 69-108, `process_pptx_template`: the first argument is the
result of `Presentation(template_file)` (an exception there propagates).
Parse the running numbers; return `None` when no codes remain; chunk the
codes (`range` raises for step 0); take `prs.slides[0]` (IndexError when the
template has no slides); duplicate the slide `len(chunks) - 1` times; then
substitute chunk `i` into slide `i`. Returns the outcome together with the
console lines printed before the outcome was reached. -/
def process_pptx_template (template : Except (List Char) (List Slide))
    (running_numbers ph : List Char) (items_per_slide : Int) :
    Except (List Char) (Option (List Slide)) × List (List Char) :=
  match template with
  | .error e => (.error e, [])
  | .ok prs =>
    let codes := parseCodes running_numbers
    if codes.isEmpty then (.ok none, [])
    else
      match pyChunks codes items_per_slide with
      | .error e => (.error e, [])
      | .ok chunks =>
        match prs[0]? with
        | none => (.error slideIndexError, [])
        | some src =>
          let dup := dupLoop src (chunks.length - 1) (prs, [])
          (.ok (some (replaceData ph chunks 0 dup.1)), dup.2)

/-- The uploaded template file: its `filename` and the result of
`Presentation(file)` on its content (a parse failure there raises inside
`process_pptx_template`). -/
structure Upload where
  filename : List Char
  parsed : Except (List Char) (List Slide)
deriving DecidableEq

/-- The multipart form request seen by the `/generate` handler: presence of
the `template_file` part, and the three optional form fields. `none` in a
form field means the field is absent, so `request.form.get` falls back to
the default. -/
structure Request where
  template_file : Option Upload
  running_numbers : Option (List Char)
  placeholder_text : Option (List Char)
  items_per_slide : Option (List Char)
deriving DecidableEq

/-- An HTTP response of the handler: a plain-text error with a status code,
or the generated document sent as an attachment with its download name. -/
inductive Response where
  | errorText (body : List Char) (status : Nat)
  | attachment (doc : List Slide) (download_name : List Char)
deriving DecidableEq

/-- Status code of a response (a `send_file` attachment is a 200). -/
def Response.status : Response → Nat
  | .errorText _ s => s
  | .attachment _ _ => 200

/-- Default placeholder token, source line 124: the literal NUM token in
double braces. -/
def defaultPlaceholder : List Char := "\x7b\x7bNUM\x7d\x7d".data

/-- Source line 125: `int(request.form.get(items_per_slide, 1))` — the
default is already an `int`, a present field is parsed by `int(...)`. -/
def itemsField (req : Request) : Except (List Char) Int :=
  match req.items_per_slide with
  | none => .ok 1
  | some s => pyInt s

/-- Body of the 500 response, source line 144. -/
def errorBody (e : List Char) : List Char := "An error occurred: ".data ++ e

/-- Console line printed by the handler before returning 500, source
line 143. -/
def errorPrint (e : List Char) : List Char := "Error: ".data ++ e

/-- Source lines 116-144, the `/generate` handler. The first argument is the
console (the process-wide stream `print` appends to); the handler returns
the console extended with whatever was printed during the request, and the
response. Field access order follows the source: file presence, form fields
with `int(...)` conversion, then the empty-filename check, then
`process_pptx_template`. -/
def generate (console : List (List Char)) (req : Request) :
    List (List Char) × Response :=
  match req.template_file with
  | none => (console, .errorText "No file uploaded".data 400)
  | some file =>
    let running := req.running_numbers.getD []
    let ph := req.placeholder_text.getD defaultPlaceholder
    match itemsField req with
    | .error e => (console ++ [errorPrint e], .errorText (errorBody e) 500)
    | .ok n =>
      if file.filename = [] then (console, .errorText "No selected file".data 400)
      else
        match process_pptx_template file.parsed running ph n with
        | (.error e, logs) => (console ++ logs ++ [errorPrint e], .errorText (errorBody e) 500)
        | (.ok none, logs) =>
          (console ++ logs, .errorText "Error: No running numbers provided.".data 400)
        | (.ok (some doc), logs) =>
          (console ++ logs, .attachment doc ("Filled_".data ++ file.filename))

/-- Concrete run, paragraph, shapes and slide used as witnesses below. -/
def runA : Run := ⟨"N-".data ++ defaultPlaceholder⟩

/-- Concrete second run whose text holds two placeholder occurrences. -/
def runB : Run := ⟨defaultPlaceholder ++ "/".data ++ defaultPlaceholder⟩

/-- Concrete text shape holding `runA` and `runB`. -/
def textShape : Shape :=
  { isPicture := false, hasTextFrame := true,
    paragraphs := [⟨[runA]⟩, ⟨[runB]⟩],
    imageBlob := .error "no image".data,
    left := 0, top := 0, width := 10, height := 10, rotation := 0 }

/-- Concrete picture shape with a readable blob. -/
def picShape : Shape :=
  { isPicture := true, hasTextFrame := false, paragraphs := [],
    imageBlob := .ok [137, 80, 78, 71],
    left := 5, top := 6, width := 20, height := 30, rotation := 45 }

/-- Concrete picture shape whose blob extraction raises. -/
def badPicShape : Shape :=
  { isPicture := true, hasTextFrame := false, paragraphs := [],
    imageBlob := .error "image not found".data,
    left := 1, top := 2, width := 3, height := 4, rotation := 0 }

/-- Concrete template slide with a picture, a broken picture and a text
shape. -/
def sampleSlide : Slide :=
  { background := some "bg".data, shapes := [picShape, badPicShape, textShape] }

/-- Concrete running-numbers text with three codes over four lines. -/
def sampleRunning : List Char := "  A1\nA2 \n\n A3  ".data

/-- The slide appended by `duplicate_slide`: the source background override
and the shape-by-shape copies of the source shapes, in order. -/
def copiedSlide (src : Slide) : Slide :=
  { background := src.background, shapes := src.shapes.map (fun sh => (copyShape sh).1) }

/-- Number of runs in a list whose text contains the placeholder token. -/
def countMatches (ph : List Char) (l : List Run) : Nat :=
  l.countP (fun r => pyContains ph r.text)

/-- Concrete request with no `template_file` part. -/
def reqMissingFile : Request :=
  { template_file := none, running_numbers := some sampleRunning,
    placeholder_text := none, items_per_slide := none }

/-- Concrete request whose selected filename is empty while the
`items_per_slide` field does not parse as an integer. -/
def reqBadItems : Request :=
  { template_file := some { filename := [], parsed := .ok [sampleSlide] },
    running_numbers := some sampleRunning,
    placeholder_text := none, items_per_slide := some "x".data }

/-- Concrete request with `items_per_slide` equal to 0 and a non-empty code
list. -/
def reqZeroItems : Request :=
  { template_file := some { filename := "t.pptx".data, parsed := .ok [sampleSlide] },
    running_numbers := some sampleRunning,
    placeholder_text := none, items_per_slide := some "0".data }

/-- Unfolding of `chunksPos` on a non-empty list for a positive chunk size:
one slice of `n` codes, then the chunks of the rest. -/
theorem chunksPos_cons (n : Nat) (hn : 0 < n) (x : α) (xs : List α) :
    chunksPos n (x :: xs) = (x :: xs).take n :: chunksPos n ((x :: xs).drop n) := by
  obtain ⟨m, rfl⟩ : ∃ m, n = m + 1 := ⟨n - 1, by omega⟩
  rw [chunksPos, List.drop_succ_cons, Nat.add_sub_cancel]

/-- A non-empty code list yields at least one chunk. -/
theorem chunksPos_ne_nil (n : Nat) (x : α) (xs : List α) :
    chunksPos n (x :: xs) ≠ [] := by
  rw [chunksPos]
  exact List.cons_ne_nil _ _

/-- The number of chunks is the ceiling of the number of codes divided by the
chunk size. -/
theorem chunksPos_length (n : Nat) (hn : 0 < n) (l : List α) :
    (chunksPos n l).length = (l.length + n - 1) / n := by
  match l with
  | [] =>
    rw [chunksPos]
    simp only [List.length_nil, Nat.zero_add, List.length]
    rw [Nat.div_eq_of_lt (by omega)]
  | x :: xs =>
    rw [chunksPos_cons n hn]
    have ih := chunksPos_length n hn ((x :: xs).drop n)
    simp only [List.length_cons, List.length_drop] at ih ⊢
    rw [ih]
    rcases le_or_lt (xs.length + 1) n with h | h
    · have h0 : xs.length + 1 - n + n - 1 = n - 1 := by omega
      rw [h0, Nat.div_eq_of_lt (by omega)]
      have h2 : xs.length + 1 + n - 1 = xs.length + n := by omega
      rw [h2, Nat.add_div_right _ hn, Nat.div_eq_of_lt (by omega)]
    · have h1 : xs.length + 1 - n + n - 1 = xs.length := by omega
      have h2 : xs.length + 1 + n - 1 = xs.length + n := by omega
      rw [h1, h2, Nat.add_div_right _ hn]
termination_by l.length
decreasing_by simp only [List.length_drop, List.length_cons]; omega

/-- Concatenating the chunks gives back the code list. -/
theorem chunksPos_flatten (n : Nat) (hn : 0 < n) (l : List α) :
    (chunksPos n l).flatten = l := by
  match l with
  | [] => rw [chunksPos]; rfl
  | x :: xs =>
    rw [chunksPos_cons n hn, List.flatten_cons,
      chunksPos_flatten n hn ((x :: xs).drop n), List.take_append_drop]
termination_by l.length
decreasing_by simp only [List.length_drop, List.length_cons]; omega

/-- Every chunk has at most `n` codes. -/
theorem chunksPos_le (n : Nat) (hn : 0 < n) (l : List α) :
    ∀ c ∈ chunksPos n l, c.length ≤ n := by
  match l with
  | [] => rw [chunksPos]; simp
  | x :: xs =>
    rw [chunksPos_cons n hn]
    intro c hc
    rcases List.mem_cons.mp hc with rfl | hc
    · exact List.length_take_le n (x :: xs)
    · exact chunksPos_le n hn ((x :: xs).drop n) c hc
termination_by l.length
decreasing_by simp only [List.length_drop, List.length_cons]; omega

/-- Every chunk except possibly the last has exactly `n` codes. -/
theorem chunksPos_dropLast (n : Nat) (hn : 0 < n) (l : List α) :
    ∀ c ∈ (chunksPos n l).dropLast, c.length = n := by
  match l with
  | [] => rw [chunksPos]; simp
  | x :: xs =>
    rw [chunksPos_cons n hn]
    rcases hr : chunksPos n ((x :: xs).drop n) with _ | ⟨c0, cs⟩
    · simp
    · intro c hc
      rw [List.dropLast_cons_of_ne_nil (by simp)] at hc
      rcases List.mem_cons.mp hc with rfl | hc
      · have hne : (x :: xs).drop n ≠ [] := by
          intro h
          rw [h, chunksPos] at hr
          exact List.cons_ne_nil _ _ hr.symm
        rw [List.length_take]
        have : n ≤ (x :: xs).length := by
          by_contra hlt
          exact hne (List.drop_eq_nil_of_le (by omega))
        omega
      · have := chunksPos_dropLast n hn ((x :: xs).drop n)
        rw [hr] at this
        exact this c hc
termination_by l.length
decreasing_by simp only [List.length_drop, List.length_cons]; omega

/-- C2: for every list of codes and every chunk size of at least 1, the
chunking step of `process_pptx_template` partitions the codes into
consecutive groups in order: every chunk has at most `n` codes, every chunk
except possibly the last has exactly `n`, and the concatenation of the
chunks equals the original code list. -/
theorem chunking_partitions (codes : List (List Char)) (n : Nat) (hn : 0 < n) :
    (∀ c ∈ chunksPos n codes, c.length ≤ n) ∧
    (∀ c ∈ (chunksPos n codes).dropLast, c.length = n) ∧
    (chunksPos n codes).flatten = codes :=
  ⟨chunksPos_le n hn codes, chunksPos_dropLast n hn codes, chunksPos_flatten n hn codes⟩

/-- Witness for C2 at a concrete input: three codes, chunk size 2. -/
theorem chunking_partitions_witness :
    0 < 2 ∧
    ((∀ c ∈ chunksPos 2 ["A1".data, "A2".data, "A3".data], c.length ≤ 2) ∧
     (∀ c ∈ (chunksPos 2 ["A1".data, "A2".data, "A3".data]).dropLast, c.length = 2) ∧
     (chunksPos 2 ["A1".data, "A2".data, "A3".data]).flatten =
       ["A1".data, "A2".data, "A3".data]) :=
  ⟨Nat.zero_lt_two, chunking_partitions ["A1".data, "A2".data, "A3".data] 2 Nat.zero_lt_two⟩

/-- The slide list produced by `duplicate_slide` is the old list with the
copied slide appended. -/
theorem duplicate_slide_fst (prs : List Slide) (src : Slide) :
    (duplicate_slide prs src).1 = prs ++ [copiedSlide src] := by
  simp [duplicate_slide, copiedSlide, List.map_map, Function.comp]

/-- Each iteration of the duplication loop grows the slide list by one. -/
theorem dupLoop_length (src : Slide) (k : Nat) (st : List Slide × List (List Char)) :
    (dupLoop src k st).1.length = st.1.length + k := by
  induction k generalizing st with
  | zero => simp [dupLoop]
  | succ m ih =>
    rw [dupLoop, ih, duplicate_slide_fst]
    simp only [List.length_append, List.length_cons, List.length_nil]
    omega

/-- C1: for a template presentation containing exactly one slide and a
non-empty parsed code list, after the duplication phase of
`process_pptx_template` the presentation contains exactly as many slides as
there are chunks, which is the ceiling of the number of codes divided by
`items_per_slide`, for `items_per_slide` at least 1. -/
theorem duplication_slide_count (s : Slide) (running : List Char) (n : Int)
    (hn : 1 ≤ n) (hcodes : parseCodes running ≠ [])
    (chunks : List (List (List Char)))
    (hch : pyChunks (parseCodes running) n = .ok chunks) :
    (dupLoop s (chunks.length - 1) ([s], [])).1.length = chunks.length ∧
    chunks.length = ((parseCodes running).length + n.toNat - 1) / n.toNat := by
  have hn0 : ¬ n = 0 := by omega
  have hnneg : ¬ n < 0 := by omega
  rw [pyChunks, if_neg hn0, if_neg hnneg] at hch
  have hchunks : chunks = chunksPos n.toNat (parseCodes running) :=
    (Except.ok.inj hch).symm
  have hpos : 0 < n.toNat := by omega
  have hlen : chunks.length = ((parseCodes running).length + n.toNat - 1) / n.toNat := by
    rw [hchunks, chunksPos_length n.toNat hpos]
  refine ⟨?_, hlen⟩
  have hne : chunks ≠ [] := by
    rw [hchunks]
    rcases hc : parseCodes running with _ | ⟨x, xs⟩
    · exact absurd hc hcodes
    · exact chunksPos_ne_nil n.toNat x xs
  rw [dupLoop_length]
  simp only [List.length_cons, List.length_nil]
  have : 1 ≤ chunks.length := List.length_pos.mpr hne
  omega

/-- Witness for C1 at a concrete input: the sample slide, three codes,
chunk size 2, giving two chunks and two slides after duplication. -/
theorem duplication_slide_count_witness :
    ∃ chunks, pyChunks (parseCodes sampleRunning) 2 = .ok chunks ∧
      ((dupLoop sampleSlide (chunks.length - 1) ([sampleSlide], [])).1.length = chunks.length ∧
       chunks.length = ((parseCodes sampleRunning).length + (2 : Int).toNat - 1) / (2 : Int).toNat) :=
  ⟨chunksPos 2 (parseCodes sampleRunning), rfl,
    duplication_slide_count sampleSlide sampleRunning 2 (by norm_num) (by decide) _ rfl⟩

/-- C9: every call to `duplicate_slide` appends exactly one slide at the end
of the slide sequence and leaves every pre-existing slide, including the
source slide, unchanged. -/
theorem duplicate_slide_frame (prs : List Slide) (src : Slide) :
    (duplicate_slide prs src).1.length = prs.length + 1 ∧
    (duplicate_slide prs src).1.take prs.length = prs ∧
    ∃ d, (duplicate_slide prs src).1 = prs ++ [d] := by
  rw [duplicate_slide_fst]
  exact ⟨by simp, by simp, copiedSlide src, rfl⟩

/-- C6: the new slide of `duplicate_slide` copies each source shape in place:
a picture shape with a readable blob is re-inserted at the same position and
size with its rotation re-applied; a picture shape whose blob extraction
raises falls back to a raw element copy; every other shape is raw-copied
directly. -/
theorem duplicate_slide_shape_copy (prs : List Slide) (src : Slide) (i : Nat)
    (sh : Shape) (h : src.shapes[i]? = some sh) :
    ∃ d, ((duplicate_slide prs src).1).getLast? = some d ∧
      d.shapes[i]? = some
        (if sh.isPicture then
           match sh.imageBlob with
           | .ok blob => addPicture blob sh.left sh.top sh.width sh.height sh.rotation
           | .error _ => sh
         else sh) := by
  refine ⟨copiedSlide src, ?_, ?_⟩
  · rw [duplicate_slide_fst]
    simp
  · show (copiedSlide src).shapes[i]? = _
    rw [copiedSlide]
    simp only [List.getElem?_map, h, Option.map_some]
    rcases sh with ⟨pic, tf, paras, blob, l, t, w, ht, rot⟩
    cases pic <;> cases blob <;> simp [copyShape, addPicture]

/-- Witness for C6 at a concrete input: the sample slide holds a readable
picture, a broken picture and a text shape; shape 0 is the readable
picture. -/
theorem duplicate_slide_shape_copy_witness :
    ∃ d, ((duplicate_slide [sampleSlide] sampleSlide).1).getLast? = some d ∧
      d.shapes[0]? = some
        (if picShape.isPicture then
           match picShape.imageBlob with
           | .ok blob =>
             addPicture blob picShape.left picShape.top picShape.width
               picShape.height picShape.rotation
           | .error _ => picShape
         else picShape) :=
  duplicate_slide_shape_copy [sampleSlide] sampleSlide 0 picShape (by decide)

/-- Substitution rewrites each run in place: the run count is preserved. -/
theorem substRuns_length (ph : List Char) (chunk : List (List Char)) :
    ∀ (L : List Run) (idx : Nat), (substRuns ph chunk idx L).1.length = L.length := by
  intro L
  induction L with
  | nil => intro idx; rw [substRuns]
  | cons r rs ih =>
    intro idx
    by_cases hc : pyContains ph r.text = true
    · by_cases h2 : idx < chunk.length
      · simp [substRuns, hc, h2, ih]
      · simp [substRuns, hc, h2, ih]
    · simp [substRuns, hc, ih]

/-- Threading the run counter through a concatenation of run lists. -/
theorem substRuns_append (ph : List Char) (chunk : List (List Char)) :
    ∀ (a b : List Run) (idx : Nat),
      substRuns ph chunk idx (a ++ b) =
        ((substRuns ph chunk idx a).1 ++
           (substRuns ph chunk (substRuns ph chunk idx a).2 b).1,
         (substRuns ph chunk (substRuns ph chunk idx a).2 b).2) := by
  intro a
  induction a with
  | nil => intro b idx; rw [substRuns]; rfl
  | cons r rs ih =>
    intro b idx
    by_cases hc : pyContains ph r.text = true
    · by_cases h2 : idx < chunk.length
      · simp [substRuns, hc, h2, ih]
      · simp [substRuns, hc, h2, ih]
    · simp [substRuns, hc, ih]

/-- Counting matching runs across a cons. -/
theorem countMatches_cons (ph : List Char) (r : Run) (rs : List Run) :
    countMatches ph (r :: rs) =
      countMatches ph rs + (if pyContains ph r.text = true then 1 else 0) := by
  simp [countMatches, List.countP_cons]

/-- The paragraph loop rewrites exactly the concatenation of its runs,
threading the counter left to right. -/
theorem substParas_flatten (ph : List Char) (chunk : List (List Char)) :
    ∀ (ps : List Paragraph) (idx : Nat),
      ((substParas ph chunk idx ps).1.map Paragraph.runs).flatten =
        (substRuns ph chunk idx ((ps.map Paragraph.runs).flatten)).1 ∧
      (substParas ph chunk idx ps).2 =
        (substRuns ph chunk idx ((ps.map Paragraph.runs).flatten)).2 := by
  intro ps
  induction ps with
  | nil => intro idx; simp [substParas, substRuns]
  | cons p ps ih =>
    intro idx
    simp only [substParas, List.map_cons, List.flatten_cons, substRuns_append]
    constructor
    · simp [ih]
    · simp [ih]

/-- The shape loop rewrites exactly the runs of the slide in traversal
order, threading the counter left to right. -/
theorem substShapes_flatten (ph : List Char) (chunk : List (List Char)) :
    ∀ (shs : List Shape) (idx : Nat),
      ((substShapes ph chunk idx shs).1.flatMap
          (fun sh => if sh.hasTextFrame then (sh.paragraphs.map Paragraph.runs).flatten else [])) =
        (substRuns ph chunk idx
          (shs.flatMap
            (fun sh => if sh.hasTextFrame then (sh.paragraphs.map Paragraph.runs).flatten else []))).1 ∧
      (substShapes ph chunk idx shs).2 =
        (substRuns ph chunk idx
          (shs.flatMap
            (fun sh => if sh.hasTextFrame then (sh.paragraphs.map Paragraph.runs).flatten else []))).2 := by
  intro shs
  induction shs with
  | nil => intro idx; simp [substShapes, substRuns]
  | cons sh shs ih =>
    intro idx
    by_cases htf : sh.hasTextFrame = true
    · simp only [substShapes, htf, List.flatMap_cons, if_true, ite_true, substRuns_append]
      constructor
      · simp [htf, ih, substParas_flatten]
      · simp [ih, substParas_flatten]
    · simp only [substShapes, htf, List.flatMap_cons, if_false, ite_false,
        Bool.false_eq_true]
      constructor
      · simp [htf, ih]
      · simp [ih]

/-- The rewritten slide has exactly the rewritten runs, in order, with the
counter starting at 0. -/
theorem slideRuns_substSlide (ph : List Char) (chunk : List (List Char)) (s : Slide) :
    slideRuns (substSlide ph chunk s) = (substRuns ph chunk 0 (slideRuns s)).1 := by
  simpa [slideRuns, substSlide] using (substShapes_flatten ph chunk s.shapes 0).1

/-- Positional characterization of the run loop: starting from counter
`idx`, the run at position `p` is rewritten according to whether it matches
and how many matching runs precede it. -/
theorem substRuns_getElem (ph : List Char) (chunk : List (List Char)) :
    ∀ (L : List Run) (idx p : Nat), idx ≤ chunk.length →
      (substRuns ph chunk idx L).1[p]? = (L[p]?).map (fun r =>
        if pyContains ph r.text = true then
          if idx + countMatches ph (L.take p) < chunk.length then
            Run.mk (pyReplaceFirst ph (chunk.getD (idx + countMatches ph (L.take p)) []) r.text)
          else Run.mk (pyReplaceAll ph [] r.text)
        else r) := by
  intro L
  induction L with
  | nil => intro idx p h; simp [substRuns]
  | cons r rs ih =>
    intro idx p h
    match p with
    | 0 =>
      simp only [List.take_zero, countMatches, List.countP_nil, Nat.add_zero,
        List.getElem?_cons_zero, Option.map_some]
      by_cases hc : pyContains ph r.text = true
      · by_cases h2 : idx < chunk.length
        · simp [substRuns, hc, h2]
        · simp [substRuns, hc, h2]
      · simp [substRuns, hc]
    | p + 1 =>
      by_cases hc : pyContains ph r.text = true
      · have hcm : countMatches ph ((r :: rs).take (p + 1)) =
            countMatches ph (rs.take p) + 1 := by
          rw [List.take_succ_cons, countMatches_cons, if_pos hc]
        by_cases h2 : idx < chunk.length
        · have e : idx + (countMatches ph (rs.take p) + 1) =
              idx + 1 + countMatches ph (rs.take p) := by omega
          simp only [hcm, List.getElem?_cons_succ, e]
          have hl : (substRuns ph chunk idx (r :: rs)).1[p + 1]? =
              (substRuns ph chunk (idx + 1) rs).1[p]? := by
            simp [substRuns, hc, h2]
          rw [hl, ih (idx + 1) p (by omega)]
        · have hidx : idx = chunk.length := by omega
          have hl : (substRuns ph chunk idx (r :: rs)).1[p + 1]? =
              (substRuns ph chunk idx rs).1[p]? := by
            simp [substRuns, hc, h2]
          rw [hl, ih idx p h]
          simp only [hcm, List.getElem?_cons_succ]
          cases hrp : rs[p]? with
          | none => rfl
          | some r2 =>
            simp only [Option.map_some', Option.some.injEq]
            by_cases hc2 : pyContains ph r2.text = true
            · have hf1 : ¬ idx + countMatches ph (rs.take p) < chunk.length := by omega
              have hf2 : ¬ idx + (countMatches ph (rs.take p) + 1) < chunk.length := by omega
              simp [hc2, hf1, hf2]
            · simp [hc2]
      · have hcm : countMatches ph ((r :: rs).take (p + 1)) =
            countMatches ph (rs.take p) := by
          rw [List.take_succ_cons, countMatches_cons, if_neg hc]
          omega
        have hl : (substRuns ph chunk idx (r :: rs)).1[p + 1]? =
            (substRuns ph chunk idx rs).1[p]? := by
          simp [substRuns, hc]
        rw [hl, ih idx p h]
        simp only [hcm, List.getElem?_cons_succ]

/-- Positions below the current loop index are never rewritten by the
replacement phase. -/
theorem replaceData_getElem_lt (ph : List Char) :
    ∀ (chunks : List (List (List Char))) (k : Nat) (slides : List Slide) (i : Nat),
      i < k → (replaceData ph chunks k slides)[i]? = slides[i]? := by
  intro chunks
  induction chunks with
  | nil => intro k slides i hik; rw [replaceData]
  | cons c cs ih =>
    intro k slides i hik
    rw [replaceData]
    cases hsl : slides[k]? with
    | none => simpa using ih (k + 1) slides i (by omega)
    | some s =>
      simp only []
      rw [ih (k + 1) _ i (by omega), List.getElem?_set_ne (by omega)]

/-- The replacement phase writes `substSlide` of chunk `j` into slide
`k + j`. -/
theorem replaceData_getElem (ph : List Char) :
    ∀ (chunks : List (List (List Char))) (k : Nat) (slides : List Slide)
      (j : Nat) (chunk : List (List Char)) (s : Slide),
      chunks[j]? = some chunk → slides[k + j]? = some s →
      (replaceData ph chunks k slides)[k + j]? = some (substSlide ph chunk s) := by
  intro chunks
  induction chunks with
  | nil => intro k slides j chunk s hc; simp at hc
  | cons c cs ih =>
    intro k slides j chunk s hc hs
    match j with
    | 0 =>
      rw [List.getElem?_cons_zero, Option.some.injEq] at hc
      subst hc
      rw [Nat.add_zero] at hs ⊢
      have hk : k < slides.length := by
        by_contra hk
        rw [List.getElem?_eq_none (by omega)] at hs
        cases hs
      rw [replaceData, hs]
      simp only []
      rw [replaceData_getElem_lt ph cs (k + 1) _ k (by omega),
        List.getElem?_set_self hk]
    | j + 1 =>
      rw [List.getElem?_cons_succ] at hc
      have hrw : k + (j + 1) = (k + 1) + j := by omega
      rw [hrw] at hs ⊢
      rw [replaceData]
      cases hsl : slides[k]? with
      | none => simpa using ih (k + 1) slides j chunk s hc hs
      | some s0 =>
        simp only []
        exact ih (k + 1) _ j chunk s hc
          (by rw [List.getElem?_set_ne (by omega)]; exact hs)

/-- C3: the substitution phase assigns chunk `i` to slide `i`, and within a
slide substitutes positionally: traversing the runs of the slide in shape,
paragraph, run order, the run at position `p` whose text contains the
placeholder token has the first occurrence replaced by code number `j`,
where `j` counts the matching runs before position `p`, whenever `j` is
below the chunk length. -/
theorem substitution_positional (ph : List Char) (chunks : List (List (List Char)))
    (slides : List Slide) (i : Nat) (chunk : List (List Char)) (slide : Slide)
    (hc : chunks[i]? = some chunk) (hs : slides[i]? = some slide) :
    (replaceData ph chunks 0 slides)[i]? = some (substSlide ph chunk slide) ∧
    (∀ p r, (slideRuns slide)[p]? = some r → pyContains ph r.text = true →
      countMatches ph ((slideRuns slide).take p) < chunk.length →
      (slideRuns (substSlide ph chunk slide))[p]? =
        some (Run.mk (pyReplaceFirst ph
          (chunk.getD (countMatches ph ((slideRuns slide).take p)) []) r.text))) := by
  constructor
  · have := replaceData_getElem ph chunks 0 slides i chunk slide hc
      (by rw [Nat.zero_add]; exact hs)
    rw [Nat.zero_add] at this
    exact this
  · intro p r hp hmatch hcount
    rw [slideRuns_substSlide,
      substRuns_getElem ph chunk (slideRuns slide) 0 p (Nat.zero_le _), hp]
    simp only [Option.map_some', Nat.zero_add]
    rw [if_pos hmatch, if_pos hcount]

/-- Witness for C3 at a concrete input: one chunk of two codes on the sample
slide; run 0 matches the default placeholder and receives code 0. -/
theorem substitution_positional_witness :
    (replaceData defaultPlaceholder [["X1".data, "X2".data]] 0 [sampleSlide])[0]? =
      some (substSlide defaultPlaceholder ["X1".data, "X2".data] sampleSlide) ∧
    (∀ p r, (slideRuns sampleSlide)[p]? = some r →
      pyContains defaultPlaceholder r.text = true →
      countMatches defaultPlaceholder ((slideRuns sampleSlide).take p) <
        (["X1".data, "X2".data] : List (List Char)).length →
      (slideRuns (substSlide defaultPlaceholder ["X1".data, "X2".data] sampleSlide))[p]? =
        some (Run.mk (pyReplaceFirst defaultPlaceholder
          ((["X1".data, "X2".data] : List (List Char)).getD
            (countMatches defaultPlaceholder ((slideRuns sampleSlide).take p)) [])
          r.text))) :=
  substitution_positional defaultPlaceholder [["X1".data, "X2".data]] [sampleSlide]
    0 ["X1".data, "X2".data] sampleSlide rfl rfl

/-- C8: during substitution of a slide, a matching run positioned after the
chunk has been consumed has every occurrence of the placeholder replaced by
the empty string, while a matching run that consumes a code has only the
first occurrence replaced. -/
theorem substitution_exhausted (ph : List Char) (chunk : List (List Char))
    (slide : Slide) (p : Nat) (r : Run)
    (hp : (slideRuns slide)[p]? = some r) (hm : pyContains ph r.text = true) :
    (chunk.length ≤ countMatches ph ((slideRuns slide).take p) →
      (slideRuns (substSlide ph chunk slide))[p]? =
        some (Run.mk (pyReplaceAll ph [] r.text))) ∧
    (countMatches ph ((slideRuns slide).take p) < chunk.length →
      (slideRuns (substSlide ph chunk slide))[p]? =
        some (Run.mk (pyReplaceFirst ph
          (chunk.getD (countMatches ph ((slideRuns slide).take p)) []) r.text))) := by
  constructor
  · intro hge
    rw [slideRuns_substSlide,
      substRuns_getElem ph chunk (slideRuns slide) 0 p (Nat.zero_le _), hp]
    simp only [Option.map_some', Nat.zero_add]
    rw [if_pos hm,
      if_neg (by omega : ¬ countMatches ph ((slideRuns slide).take p) < chunk.length)]
  · intro hlt
    rw [slideRuns_substSlide,
      substRuns_getElem ph chunk (slideRuns slide) 0 p (Nat.zero_le _), hp]
    simp only [Option.map_some', Nat.zero_add]
    rw [if_pos hm, if_pos hlt]

/-- Witness for C8 at a concrete input: an empty chunk on the sample slide,
so run 0 already finds the chunk consumed. -/
theorem substitution_exhausted_witness :
    (([] : List (List Char)).length ≤
        countMatches defaultPlaceholder ((slideRuns sampleSlide).take 0) →
      (slideRuns (substSlide defaultPlaceholder [] sampleSlide))[0]? =
        some (Run.mk (pyReplaceAll defaultPlaceholder [] runA.text))) ∧
    (countMatches defaultPlaceholder ((slideRuns sampleSlide).take 0) <
        ([] : List (List Char)).length →
      (slideRuns (substSlide defaultPlaceholder [] sampleSlide))[0]? =
        some (Run.mk (pyReplaceFirst defaultPlaceholder
          (([] : List (List Char)).getD
            (countMatches defaultPlaceholder ((slideRuns sampleSlide).take 0)) [])
          runA.text))) :=
  substitution_exhausted defaultPlaceholder [] sampleSlide 0 runA (by decide) (by decide)

/-- The head of a non-empty `dropWhile` result fails the predicate. -/
theorem dropWhile_head_false (p : α → Bool) :
    ∀ (l : List α) (b : α) (r : List α), l.dropWhile p = b :: r → p b = false := by
  intro l
  induction l with
  | nil => intro b r h; cases h
  | cons x xs ih =>
    intro b r h
    rw [List.dropWhile_cons] at h
    by_cases hx : p x = true
    · rw [if_pos hx] at h
      exact ih b r h
    · rw [if_neg hx] at h
      cases h
      simpa using hx

/-- Stripping ignores a leading whitespace character. -/
theorem pyStrip_cons (c : Char) (l : List Char) (hc : isPySpace c = true) :
    pyStrip (c :: l) = pyStrip l := by
  rw [pyStrip, pyStrip, List.dropWhile_cons, if_pos hc]

/-- Stripping ignores a trailing whitespace character. -/
theorem pyStrip_concat (l : List Char) (w : Char) (hw : isPySpace w = true) :
    pyStrip (l ++ [w]) = pyStrip l := by
  rw [pyStrip, pyStrip, List.dropWhile_append]
  by_cases he : (List.dropWhile isPySpace l).isEmpty = true
  · rw [if_pos he, List.dropWhile_cons, if_pos hw]
    simp only [List.dropWhile_nil, List.rdropWhile_nil]
    rw [List.isEmpty_iff] at he
    rw [he, List.rdropWhile_nil]
  · rw [if_neg he, List.rdropWhile_concat_pos _ _ _ hw]

/-- A non-empty string has at least one line. -/
theorem pySplitlines_ne_nil (c : Char) (t : List Char) :
    pySplitlines (c :: t) ≠ [] := by
  match t with
  | [] =>
    rw [pySplitlines]
    split
    · exact List.cons_ne_nil _ _
    · split
      · exact List.cons_ne_nil _ _
      · exact List.cons_ne_nil _ _
  | c2 :: t2 =>
    rw [pySplitlines]
    split
    · split
      · exact List.cons_ne_nil _ _
      · exact List.cons_ne_nil _ _
    · split
      · exact List.cons_ne_nil _ _
      · split
        · exact List.cons_ne_nil _ _
        · exact List.cons_ne_nil _ _

/-- One-step unfolding of `pySplitlines` on a cons, with the tail left
opaque. -/
theorem pySplitlines_cons (c : Char) (t : List Char) :
    pySplitlines (c :: t) =
      if c = '\r' then
        match t with
        | [] => [[]]
        | c2 :: t2 =>
          if c2 = '\n' then [] :: pySplitlines t2 else [] :: pySplitlines (c2 :: t2)
      else if isPyLineBreak c then [] :: pySplitlines t
      else
        match pySplitlines t with
        | [] => [[c]]
        | l :: ls => (c :: l) :: ls := by
  cases t with
  | nil => rfl
  | cons c2 t2 => rfl

/-- A single whitespace character yields no codes. -/
theorem parseCodesSpec_singleton_space (w : Char) (hw : isPySpace w = true) :
    parseCodesSpec [w] = [] := by
  have hs : pyStrip [w] = [] := by
    rw [pyStrip, List.dropWhile_cons, if_pos hw]
    simp [List.rdropWhile_nil]
  by_cases hr : w = '\r'
  · subst hr
    rfl
  · by_cases hb : isPyLineBreak w = true
    · rw [parseCodesSpec, pySplitlines, if_neg hr, if_pos hb]
      rfl
    · rw [parseCodesSpec, pySplitlines, if_neg hr, if_neg hb]
      simp only [pySplitlines]
      simp [hs]

/-- A break-free non-empty string is a single line. -/
theorem pySplitlines_no_break :
    ∀ (c : Char) (t : List Char), (∀ x ∈ c :: t, isPyLineBreak x = false) →
      pySplitlines (c :: t) = [c :: t] := by
  intro c t
  induction t generalizing c with
  | nil =>
    intro hnb
    have hc : isPyLineBreak c = false := hnb c (by simp)
    have hr : c ≠ '\r' := by
      intro h
      subst h
      simp [isPyLineBreak] at hc
    rw [pySplitlines, if_neg hr, if_neg (by simp [hc])]
    simp [pySplitlines]
  | cons c2 t2 ih =>
    intro hnb
    have hc : isPyLineBreak c = false := hnb c (by simp)
    have hr : c ≠ '\r' := by
      intro h
      subst h
      simp [isPyLineBreak] at hc
    rw [pySplitlines, if_neg hr, if_neg (by simp [hc])]
    rw [ih c2 (fun x hx => hnb x (List.mem_cons_of_mem c hx))]

/-- A break-free non-empty string followed by one break character is still a
single line. -/
theorem pySplitlines_trail_break :
    ∀ (c : Char) (t : List Char) (b : Char), (∀ x ∈ c :: t, isPyLineBreak x = false) →
      isPyLineBreak b = true → pySplitlines ((c :: t) ++ [b]) = [c :: t] := by
  intro c t
  induction t generalizing c with
  | nil =>
    intro b hnb hb
    have hc : isPyLineBreak c = false := hnb c (by simp)
    have hr : c ≠ '\r' := by
      intro h
      subst h
      simp [isPyLineBreak] at hc
    show pySplitlines (c :: [b]) = [[c]]
    rw [pySplitlines_cons, if_neg hr, if_neg (by simp [hc])]
    have hs : pySplitlines [b] = [[]] := by
      by_cases hbr : b = '\r'
      · subst hbr
        rfl
      · rw [pySplitlines_cons, if_neg hbr, if_pos hb]
        rfl
    rw [hs]
  | cons c2 t2 ih =>
    intro b hnb hb
    have hc : isPyLineBreak c = false := hnb c (by simp)
    have hr : c ≠ '\r' := by
      intro h
      subst h
      simp [isPyLineBreak] at hc
    show pySplitlines (c :: ((c2 :: t2) ++ [b])) = [c :: c2 :: t2]
    rw [pySplitlines_cons, if_neg hr, if_neg (by simp [hc])]
    rw [ih c2 b (fun x hx => hnb x (List.mem_cons_of_mem c hx)) hb]

/-- Splitting at the first break character: the break-free prefix is the
first line, and the remainder is split after consuming the break (two
characters when it is a carriage return followed by a newline). -/
theorem pySplitlines_first_break :
    ∀ (pre : List Char) (b : Char) (rest : List Char),
      (∀ x ∈ pre, isPyLineBreak x = false) → isPyLineBreak b = true →
      pySplitlines (pre ++ b :: rest) =
        pre :: pySplitlines
          (if b = '\r' ∧ rest.head? = some '\n' then rest.tail else rest) := by
  intro pre
  induction pre with
  | nil =>
    intro b rest hnb hb
    simp only [List.nil_append]
    by_cases hbr : b = '\r'
    · subst hbr
      cases rest with
      | nil => simp [pySplitlines]
      | cons c2 t2 =>
        rw [pySplitlines_cons]
        by_cases hn : c2 = '\n'
        · subst hn
          simp
        · simp [hn]
    · rw [pySplitlines_cons, if_neg hbr, if_pos hb]
      have hnot : ¬ (b = '\r' ∧ rest.head? = some '\n') := fun h => hbr h.1
      rw [if_neg hnot]
  | cons c pre2 ih =>
    intro b rest hnb hb
    have hc : isPyLineBreak c = false := hnb c (by simp)
    have hr : c ≠ '\r' := by
      intro h
      subst h
      simp [isPyLineBreak] at hc
    rw [List.cons_append, pySplitlines_cons, if_neg hr, if_neg (by simp [hc])]
    rw [ih b rest (fun x hx => hnb x (List.mem_cons_of_mem c hx)) hb]

/-- Dropping one leading whitespace character does not change the parsed
code list. -/
theorem parseCodesSpec_cons_space (c : Char) (t : List Char) (hc : isPySpace c = true) :
    parseCodesSpec (c :: t) = parseCodesSpec t := by
  by_cases hr : c = '\r'
  · subst hr
    cases t with
    | nil => rfl
    | cons c2 t2 =>
      by_cases hn : c2 = '\n'
      · subst hn
        have hL : pySplitlines ('\r' :: '\n' :: t2) = [] :: pySplitlines t2 := by
          rw [pySplitlines_cons]
          simp
        have hR : pySplitlines ('\n' :: t2) = [] :: pySplitlines t2 := by
          rw [pySplitlines_cons]
          simp [isPyLineBreak]
        rw [parseCodesSpec, parseCodesSpec, hL, hR]
      · have hL : pySplitlines ('\r' :: c2 :: t2) = [] :: pySplitlines (c2 :: t2) := by
          rw [pySplitlines_cons]
          simp [hn]
        rw [parseCodesSpec, parseCodesSpec, hL]
        simp [pyStrip]
  · by_cases hb : isPyLineBreak c = true
    · rw [parseCodesSpec, parseCodesSpec, pySplitlines_cons, if_neg hr, if_pos hb]
      simp [pyStrip]
    · cases hS : pySplitlines t with
      | nil =>
        have ht : t = [] := by
          cases t with
          | nil => rfl
          | cons x xs => exact absurd hS (pySplitlines_ne_nil x xs)
        subst ht
        rw [parseCodesSpec_singleton_space c hc]
        rfl
      | cons l ls =>
        rw [parseCodesSpec, parseCodesSpec, pySplitlines_cons, if_neg hr, if_neg hb, hS]
        simp only [List.filter_cons, pyStrip_cons c l hc]
        by_cases hk : (pyStrip l).isEmpty = true
        · simp [hk]
        · simp [hk, pyStrip_cons c l hc]

/-- Dropping all leading whitespace does not change the parsed code list. -/
theorem parseCodesSpec_dropWhile (s : List Char) :
    parseCodesSpec (List.dropWhile isPySpace s) = parseCodesSpec s := by
  induction s with
  | nil => rfl
  | cons c t ih =>
    rw [List.dropWhile_cons]
    by_cases hc : isPySpace c = true
    · rw [if_pos hc, ih, parseCodesSpec_cons_space c t hc]
    · rw [if_neg hc]

/-- Appending one trailing whitespace character does not change the parsed
code list. -/
theorem parseCodesSpec_concat (u : List Char) (w : Char) (hw : isPySpace w = true) :
    parseCodesSpec (u ++ [w]) = parseCodesSpec u := by
  cases hd : u.dropWhile (fun x => !isPyLineBreak x) with
  | nil =>
    have hnb : ∀ x ∈ u, isPyLineBreak x = false := by
      intro x hx
      have hbx := List.dropWhile_eq_nil_iff.mp hd x hx
      simpa using hbx
    cases u with
    | nil =>
      simp only [List.nil_append]
      rw [parseCodesSpec_singleton_space w hw]
      rfl
    | cons c t =>
      by_cases hwb : isPyLineBreak w = true
      · rw [parseCodesSpec, parseCodesSpec,
          pySplitlines_trail_break c t w hnb hwb, pySplitlines_no_break c t hnb]
      · have hnb2 : ∀ x ∈ c :: (t ++ [w]), isPyLineBreak x = false := by
          intro x hx
          rcases List.mem_cons.mp hx with rfl | hx2
          · exact hnb x (by simp)
          · rcases List.mem_append.mp hx2 with h | h
            · exact hnb x (List.mem_cons_of_mem c h)
            · simp at h
              subst h
              simpa using hwb
        rw [parseCodesSpec, parseCodesSpec, List.cons_append,
          pySplitlines_no_break c (t ++ [w]) hnb2, pySplitlines_no_break c t hnb]
        have hstrip : pyStrip (c :: (t ++ [w])) = pyStrip (c :: t) := by
          rw [← List.cons_append, pyStrip_concat _ w hw]
        by_cases hk : (pyStrip (c :: t)).isEmpty = true
        · simp [hk, hstrip]
        · simp [hk, hstrip]
  | cons b rest =>
    have hu : u = u.takeWhile (fun x => !isPyLineBreak x) ++ b :: rest := by
      conv_lhs => rw [← List.takeWhile_append_dropWhile (fun x => !isPyLineBreak x) u]
      rw [hd]
    have hpre : ∀ x ∈ u.takeWhile (fun x => !isPyLineBreak x), isPyLineBreak x = false := by
      intro x hx
      have := List.mem_takeWhile_imp hx
      simpa using this
    have hb : isPyLineBreak b = true := by
      have := dropWhile_head_false (fun x => !isPyLineBreak x) u b rest hd
      simpa using this
    have hu2 : u ++ [w] = u.takeWhile (fun x => !isPyLineBreak x) ++ b :: (rest ++ [w]) := by
      conv_lhs => rw [hu]
      simp
    rw [parseCodesSpec, parseCodesSpec, hu2,
      pySplitlines_first_break _ b (rest ++ [w]) hpre hb]
    conv_rhs => rw [hu, pySplitlines_first_break _ b rest hpre hb]
    have hsuf : parseCodesSpec (if b = '\r' ∧ (rest ++ [w]).head? = some '\n'
        then (rest ++ [w]).tail else rest ++ [w]) =
        parseCodesSpec (if b = '\r' ∧ rest.head? = some '\n' then rest.tail else rest) := by
      cases rest with
      | cons c2 t2 =>
        by_cases hcond : b = '\r' ∧ (c2 :: t2).head? = some '\n'
        · have hcond2 : b = '\r' ∧ ((c2 :: t2) ++ [w]).head? = some '\n' := by
            exact ⟨hcond.1, by simpa using hcond.2⟩
          rw [if_pos hcond2, if_pos hcond]
          simp only [List.cons_append, List.tail_cons]
          exact parseCodesSpec_concat t2 w hw
        · have hcond2 : ¬ (b = '\r' ∧ ((c2 :: t2) ++ [w]).head? = some '\n') := by
            intro h
            exact hcond ⟨h.1, by simpa using h.2⟩
          rw [if_neg hcond2, if_neg hcond]
          exact parseCodesSpec_concat (c2 :: t2) w hw
      | nil =>
        simp only [List.nil_append]
        rw [if_neg (show ¬ (b = '\r' ∧ ([] : List Char).head? = some '\n') by simp)]
        by_cases hcond : b = '\r' ∧ w = '\n'
        · rw [if_pos (show b = '\r' ∧ ([w]).head? = some '\n' from
            ⟨hcond.1, by simp [hcond.2]⟩)]
          rfl
        · rw [if_neg (show ¬ (b = '\r' ∧ ([w]).head? = some '\n') by
            intro h
            exact hcond ⟨h.1, by simpa using h.2⟩)]
          rw [parseCodesSpec_singleton_space w hw]
          rfl
    rw [parseCodesSpec, parseCodesSpec] at hsuf
    simp only [List.filter_cons]
    by_cases hk : (!(pyStrip (u.takeWhile (fun x => !isPyLineBreak x))).isEmpty) = true
    · rw [if_pos hk, if_pos hk]
      simp only [List.map_cons]
      rw [hsuf]
    · rw [if_neg hk, if_neg hk]
      exact hsuf
termination_by u.length
decreasing_by
  · have : u.length = (u.takeWhile (fun x => !isPyLineBreak x)).length + t2.length + 2 := by
      conv_lhs => rw [hu]
      simp [List.length_append]
      omega
    omega
  · have : u.length = (u.takeWhile (fun x => !isPyLineBreak x)).length + t2.length + 2 := by
      conv_lhs => rw [hu]
      simp [List.length_append]
      omega
    simp only [List.length_cons]
    omega

/-- Dropping all trailing whitespace does not change the parsed code list. -/
theorem parseCodesSpec_rdropWhile (s : List Char) :
    parseCodesSpec (List.rdropWhile isPySpace s) = parseCodesSpec s := by
  induction s using List.reverseRecOn with
  | nil => rw [List.rdropWhile_nil]
  | append_singleton l a ih =>
    by_cases ha : isPySpace a = true
    · rw [List.rdropWhile_concat_pos _ _ _ ha, ih, parseCodesSpec_concat l a ha]
    · rw [List.rdropWhile_concat_neg _ _ _ ha]

/-- C5: `process_pptx_template` parses the running-numbers text into the
list of its lines that are non-empty after stripping, each stripped, in
their original line order (the outer `strip()` the code applies first makes
no difference); and when that list is empty the function returns `None`
without producing a document. -/
theorem parse_running_numbers (s : List Char) :
    parseCodes s = parseCodesSpec s ∧
    (∀ (prs : List Slide) (ph : List Char) (n : Int),
      parseCodes s = [] →
      (process_pptx_template (.ok prs) s ph n).1 = .ok none) := by
  refine ⟨?_, ?_⟩
  · show parseCodesSpec (pyStrip s) = parseCodesSpec s
    rw [pyStrip, parseCodesSpec_rdropWhile, parseCodesSpec_dropWhile]
  · intro prs ph n hempty
    simp [process_pptx_template, hempty]

/-- Witness for C5 at concrete inputs: a code list text, and a
whitespace-only text for which the function returns `None`. -/
theorem parse_running_numbers_witness :
    (parseCodes sampleRunning = parseCodesSpec sampleRunning) ∧
    ((process_pptx_template (.ok [sampleSlide]) "  \n \t ".data
        defaultPlaceholder 2).1 = .ok none) :=
  ⟨(parse_running_numbers sampleRunning).1,
   (parse_running_numbers "  \n \t ".data).2 [sampleSlide] defaultPlaceholder 2 (by decide)⟩

/-- C10: for `items_per_slide` equal to 0 and a non-empty code list,
`process_pptx_template` raises at the chunking step with the `range` step
error, so the `/generate` endpoint returns status 500 rather than 400. -/
theorem items_zero_raises (prs : List Slide) (running : List Char)
    (h : parseCodes running ≠ []) :
    (∀ ph : List Char, (process_pptx_template (.ok prs) running ph 0).1 =
      .error "range() arg 3 must not be zero".data) ∧
    (∀ (console : List (List Char)) (f : Upload) (req : Request),
      req.template_file = some f → f.parsed = .ok prs → f.filename ≠ [] →
      req.running_numbers = some running → itemsField req = .ok 0 →
      ((generate console req).2).status = 500) := by
  have hne : (parseCodes running).isEmpty = false := by
    cases hc : parseCodes running with
    | nil => exact absurd hc h
    | cons a b => rfl
  have hproc : ∀ ph : List Char, (process_pptx_template (.ok prs) running ph 0).1 =
      .error "range() arg 3 must not be zero".data := by
    intro ph
    simp [process_pptx_template, hne, pyChunks]
  refine ⟨hproc, ?_⟩
  intro console f req hreq hparsed hfile hrun hitems
  have hrun2 : req.running_numbers.getD [] = running := by rw [hrun]; rfl
  rcases hp : process_pptx_template f.parsed (req.running_numbers.getD [])
      (req.placeholder_text.getD defaultPlaceholder) 0 with ⟨res, logs⟩
  have hres : res = .error "range() arg 3 must not be zero".data := by
    have := hproc (req.placeholder_text.getD defaultPlaceholder)
    rw [hrun2, hparsed] at hp
    rw [← this, hp]
  subst hres
  simp [generate, hreq, hitems, hfile, hp, Response.status]

/-- Witness for C10 at a concrete request: `items_per_slide` is the string
0, the template parses to the sample slide, and the handler answers 500. -/
theorem items_zero_raises_witness :
    ((process_pptx_template (.ok [sampleSlide]) sampleRunning
        defaultPlaceholder 0).1 = .error "range() arg 3 must not be zero".data) ∧
    ((generate [] reqZeroItems).2).status = 500 := by
  have h := items_zero_raises [sampleSlide] sampleRunning (by decide)
  exact ⟨h.1 defaultPlaceholder,
    h.2 [] { filename := "t.pptx".data, parsed := .ok [sampleSlide] } reqZeroItems
      rfl rfl (by decide) rfl (by decide)⟩

/-- The response of the handler does not depend on the console state. -/
theorem generate_snd_state (console console2 : List (List Char)) (req : Request) :
    (generate console req).2 = (generate console2 req).2 := by
  rw [generate, generate]
  cases req.template_file with
  | none => rfl
  | some f =>
    cases hi : itemsField req with
    | error e => rfl
    | ok n =>
      by_cases hf : f.filename = []
      · simp [hf]
      · simp only [if_neg hf]
        rcases hp : process_pptx_template f.parsed (req.running_numbers.getD [])
            (req.placeholder_text.getD defaultPlaceholder) n with ⟨res, logs⟩
        cases res with
        | error e => rfl
        | ok o =>
          cases o with
          | none => rfl
          | some doc => rfl

/-- The handler only appends to the console, and what it appends does not
depend on the prior console state. -/
theorem generate_fst_state (console : List (List Char)) (req : Request) :
    (generate console req).1 = console ++ (generate [] req).1 := by
  rw [generate, generate]
  cases req.template_file with
  | none => simp
  | some f =>
    cases hi : itemsField req with
    | error e => simp
    | ok n =>
      by_cases hf : f.filename = []
      · simp [hf]
      · simp only [if_neg hf]
        rcases hp : process_pptx_template f.parsed (req.running_numbers.getD [])
            (req.placeholder_text.getD defaultPlaceholder) n with ⟨res, logs⟩
        cases res with
        | error e => simp
        | ok o =>
          cases o with
          | none => simp
          | some doc => simp

/-- C7: the processing pipeline reads and writes no state beyond its
arguments, its return value and the append-only console: the response is a
function of the request alone (equal inputs give equal outputs whatever the
prior console state), the console is only appended to with request-determined
lines, and a request following another request gets exactly the response it
would have gotten alone. -/
theorem process_stateless (console console2 : List (List Char)) (r r2 : Request) :
    (generate console r).2 = (generate console2 r).2 ∧
    (generate console r).1 = console ++ (generate [] r).1 ∧
    (generate (generate console r2).1 r).2 = (generate console r).2 :=
  ⟨generate_snd_state console console2 r,
   generate_fst_state console r,
   generate_snd_state (generate console r2).1 console r⟩

/-- The processing function answers `None` only when the parsed code list is
empty. -/
theorem process_ok_none (tf : Except (List Char) (List Slide))
    (running ph : List Char) (n : Int) :
    (process_pptx_template tf running ph n).1 = .ok none → parseCodes running = [] := by
  intro h
  cases tf with
  | error e => simp [process_pptx_template] at h
  | ok prs =>
    rw [process_pptx_template] at h
    by_cases he : (parseCodes running).isEmpty = true
    · exact List.isEmpty_iff.mp he
    · exfalso
      simp only [he, Bool.false_eq_true, if_false, ite_false] at h
      cases hc : pyChunks (parseCodes running) n with
      | error e => rw [hc] at h; cases h
      | ok chunks =>
        rw [hc] at h
        cases hs : prs[0]? with
        | none => rw [hs] at h; cases h
        | some src =>
          rw [hs] at h
          simp only [] at h
          cases h

/-- Counterexample for C4: a request whose selected filename is empty — one
of the conditions the claim says yields status 400 — but whose
`items_per_slide` field does not parse as an integer. The `int(...)`
conversion happens before the filename check, so the handler answers 500,
not 400. -/
theorem generate_400_iff_counterexample :
    (∃ f, reqBadItems.template_file = some f ∧ f.filename = []) ∧
    ((generate [] reqBadItems).2).status ≠ 400 ∧
    ((generate [] reqBadItems).2).status = 500 := by
  refine ⟨⟨{ filename := [], parsed := .ok [sampleSlide] }, rfl, rfl⟩, ?_, ?_⟩
  · decide
  · decide

/-- C4 (amended): status 400 arises only for a missing file part, an empty
selected filename, or an empty parsed code list; conversely, a missing file
part always yields 400, an empty filename yields 400 provided
`items_per_slide` parses as an integer, and an empty code list yields 400
provided `items_per_slide` parses, the filename is non-empty and processing
returns `None`; any exception — the `int(...)` conversion, or any error
raised inside processing — yields 500 with the exception message echoed in
the body; otherwise the generated document is returned as an attachment
named after the upload. -/
theorem generate_status_characterization (console : List (List Char)) (req : Request) :
    (((generate console req).2).status = 400 →
      req.template_file = none ∨
      (∃ f, req.template_file = some f ∧ f.filename = []) ∨
      parseCodes (req.running_numbers.getD []) = []) ∧
    (req.template_file = none →
      (generate console req).2 = .errorText "No file uploaded".data 400) ∧
    (∀ f n, req.template_file = some f → itemsField req = .ok n → f.filename = [] →
      (generate console req).2 = .errorText "No selected file".data 400) ∧
    (∀ f e, req.template_file = some f → itemsField req = .error e →
      (generate console req).2 = .errorText (errorBody e) 500) ∧
    (∀ f n e, req.template_file = some f → itemsField req = .ok n → f.filename ≠ [] →
      (process_pptx_template f.parsed (req.running_numbers.getD [])
        (req.placeholder_text.getD defaultPlaceholder) n).1 = .error e →
      (generate console req).2 = .errorText (errorBody e) 500) ∧
    (∀ f n, req.template_file = some f → itemsField req = .ok n → f.filename ≠ [] →
      (process_pptx_template f.parsed (req.running_numbers.getD [])
        (req.placeholder_text.getD defaultPlaceholder) n).1 = .ok none →
      (generate console req).2 =
        .errorText "Error: No running numbers provided.".data 400) ∧
    (∀ f n doc, req.template_file = some f → itemsField req = .ok n → f.filename ≠ [] →
      (process_pptx_template f.parsed (req.running_numbers.getD [])
        (req.placeholder_text.getD defaultPlaceholder) n).1 = .ok (some doc) →
      (generate console req).2 = .attachment doc ("Filled_".data ++ f.filename)) := by
  refine ⟨?_, ?_, ?_, ?_, ?_, ?_, ?_⟩
  · intro hstatus
    cases hreq : req.template_file with
    | none => exact Or.inl rfl
    | some f =>
      cases hi : itemsField req with
      | error e =>
        exfalso
        rw [generate, hreq] at hstatus
        simp only [hi] at hstatus
        simp [Response.status] at hstatus
      | ok n =>
        by_cases hf : f.filename = []
        · exact Or.inr (Or.inl ⟨f, rfl, hf⟩)
        · rcases hp : process_pptx_template f.parsed (req.running_numbers.getD [])
              (req.placeholder_text.getD defaultPlaceholder) n with ⟨res, logs⟩
          cases res with
          | error e =>
            exfalso
            rw [generate, hreq] at hstatus
            simp only [hi, if_neg hf, hp] at hstatus
            simp [Response.status] at hstatus
          | ok o =>
            cases o with
            | none =>
              refine Or.inr (Or.inr ?_)
              exact process_ok_none f.parsed _ _ n (by rw [hp])
            | some doc =>
              exfalso
              rw [generate, hreq] at hstatus
              simp only [hi, if_neg hf, hp] at hstatus
              simp [Response.status] at hstatus
  · intro hreq
    rw [generate, hreq]
  · intro f n hreq hi hf
    rw [generate, hreq]
    simp [hi, hf]
  · intro f e hreq hi
    rw [generate, hreq]
    simp [hi]
  · intro f n e hreq hi hf hp
    rcases hpair : process_pptx_template f.parsed (req.running_numbers.getD [])
        (req.placeholder_text.getD defaultPlaceholder) n with ⟨res, logs⟩
    rw [hpair] at hp
    simp only [] at hp
    subst hp
    rw [generate, hreq]
    simp [hi, hf, hpair]
  · intro f n hreq hi hf hp
    rcases hpair : process_pptx_template f.parsed (req.running_numbers.getD [])
        (req.placeholder_text.getD defaultPlaceholder) n with ⟨res, logs⟩
    rw [hpair] at hp
    simp only [] at hp
    subst hp
    rw [generate, hreq]
    simp [hi, hf, hpair]
  · intro f n doc hreq hi hf hp
    rcases hpair : process_pptx_template f.parsed (req.running_numbers.getD [])
        (req.placeholder_text.getD defaultPlaceholder) n with ⟨res, logs⟩
    rw [hpair] at hp
    simp only [] at hp
    subst hp
    rw [generate, hreq]
    simp [hi, hf, hpair]

/-- Witness for the amended C4 at a concrete request with no file part: the
handler answers the 400 no-file error. -/
theorem generate_status_characterization_witness :
    (generate [] reqMissingFile).2 = .errorText "No file uploaded".data 400 :=
  (generate_status_characterization [] reqMissingFile).2.1 rfl
